import Mathlib

/-!
Verification development for the braindrop mirror-and-filter engine.

The Python sources are shallowly embedded: JSON payloads become an inductive
`Json` tree, fallible operations return `Except PyError`, Python `dict`s become
association lists with first-match lookup, and `datetime` values are embedded as
integer epoch seconds.  Each definition mirrors the function of the same name in
the repository source; functions whose source file is absent from the snapshot
are modelled from the specification and say so in their doc comment.
-/

namespace Braindrop

/-- The Python exceptions the embedded code can raise. -/
inductive PyError where
  | keyError
  | typeError
  | attributeError
  | valueError
  | remoteError
deriving DecidableEq, Repr

/-- A JSON value, as produced by `json.loads`.  Numbers are embedded as
integers (the engine only ever reads identities and counts). -/
inductive Json where
  | null
  | bool (b : Bool)
  | num (n : Int)
  | str (s : String)
  | arr (elems : List Json)
  | obj (fields : List (String × Json))
deriving Repr

/-- First-match lookup in a JSON object's field list (Python dict lookup). -/
def Json.lookup (fields : List (String × Json)) (k : String) : Option Json :=
  (fields.find? (fun p => p.1 == k)).map (fun p => p.2)

/-- Python subscripting `data[k]`: `KeyError` when the key is missing,
`TypeError` when the receiver is not a dict (e.g. indexing into `None`). -/
def Json.index (j : Json) (k : String) : Except PyError Json :=
  match j with
  | .obj fields =>
    match Json.lookup fields k with
    | some v => .ok v
    | none => .error .keyError
  | _ => .error .typeError

/-- Python `data.get(k, default)`: total on dicts, `AttributeError` on a
non-dict receiver. -/
def Json.get (j : Json) (k : String) (dflt : Json) : Except PyError Json :=
  match j with
  | .obj fields => .ok ((Json.lookup fields k).getD dflt)
  | _ => .error .attributeError

/-- Python `data.get(k)` with no default (`None` when the key is absent). -/
def Json.getOpt (j : Json) (k : String) : Except PyError Json :=
  Json.get j k Json.null

/-- Reading a JSON value as an int, where the embedding expects one. -/
def Json.asInt : Json → Except PyError Int
  | .num n => .ok n
  | _ => .error .typeError

/-- Reading a JSON value as a string, where the embedding expects one. -/
def Json.asStr : Json → Except PyError String
  | .str s => .ok s
  | _ => .error .typeError

/-- Reading a JSON value as a bool, where the embedding expects one. -/
def Json.asBool : Json → Except PyError Bool
  | .bool b => .ok b
  | _ => .error .typeError

/-- Reading a JSON value as an array, where the embedding expects one. -/
def Json.asArr : Json → Except PyError (List Json)
  | .arr xs => .ok xs
  | _ => .error .typeError

/-- Python truthiness of a JSON value. -/
def Json.truthy : Json → Bool
  | .null => false
  | .bool b => b
  | .num n => decide (n ≠ 0)
  | .str s => !s.isEmpty
  | .arr xs => !xs.isEmpty
  | .obj fs => !fs.isEmpty

/-! ### Decimal rendering and parsing

`json.dumps` renders int dict keys with `str`, and `LocalData.load` turns them
back with `int`.  We embed those library functions as an explicit decimal
codec and prove the round trip. -/

/-- The character for a single decimal digit: an offset into the ASCII digit
block. -/
def digitChar (d : Nat) : Char :=
  Char.ofNat (48 + min d 9)

/-- The digit denoted by a character, if any: the offset from ASCII `0` when
the character lies in the digit block. -/
def charDigit (c : Char) : Option Nat :=
  if 48 ≤ c.toNat ∧ c.toNat ≤ 57 then some (c.toNat - 48) else none

/-- Decode a list of digit characters (most significant last). -/
def charsToDigits : List Char → Option (List Nat)
  | [] => some []
  | c :: cs =>
    match charDigit c, charsToDigits cs with
    | some d, some ds => some (d :: ds)
    | _, _ => none

/-- The little-endian decimal digits of a natural number, computed with a
structural fuel so that concrete instances reduce definitionally. -/
def natDigitsAux : Nat → Nat → List Nat
  | _, 0 => []
  | 0, _ + 1 => []
  | fuel + 1, n + 1 => ((n + 1) % 10) :: natDigitsAux fuel ((n + 1) / 10)

/-- The little-endian decimal digits of a natural number. -/
def natDigits (n : Nat) : List Nat :=
  natDigitsAux n n

theorem natDigitsAux_eq_digits : ∀ fuel n, n ≤ fuel →
    natDigitsAux fuel n = Nat.digits 10 n := by
  intro fuel
  induction fuel with
  | zero =>
    intro n hn
    have : n = 0 := Nat.le_zero.mp hn
    subst this
    rw [Nat.digits_zero]
    rfl
  | succ fuel ih =>
    intro n hn
    cases n with
    | zero =>
      rw [Nat.digits_zero]
      rfl
    | succ m =>
      rw [natDigitsAux]
      rw [Nat.digits_def' (by norm_num : (1 : Nat) < 10) (Nat.succ_pos m)]
      congr 1
      apply ih
      have : (m + 1) / 10 < m + 1 := Nat.div_lt_self (Nat.succ_pos m) (by norm_num)
      omega

theorem natDigits_eq_digits (n : Nat) : natDigits n = Nat.digits 10 n :=
  natDigitsAux_eq_digits n n le_rfl

/-- The characters of the decimal rendering of a natural number. -/
def natToChars (n : Nat) : List Char :=
  if n = 0 then ['0'] else ((natDigits n).map digitChar).reverse

/-- Parse a nonempty digit string as a natural number (Python `int` on a
non-negative literal). -/
def natOfChars? (cs : List Char) : Option Nat :=
  if cs.isEmpty then none
  else (charsToDigits cs.reverse).map (Nat.ofDigits 10)

/-- Python `str` on an int. -/
def strOfInt (i : Int) : String :=
  if i < 0 then String.mk ('-' :: natToChars i.natAbs) else String.mk (natToChars i.natAbs)

/-- Python `int` on a string, by characters (ValueError modelled as `none`). -/
def intOfChars? : List Char → Option Int
  | [] => none
  | c :: cs =>
    if c = '-' then (natOfChars? cs).map (fun n : Nat => -(Int.ofNat n))
    else (natOfChars? (c :: cs)).map (fun n : Nat => Int.ofNat n)

/-- Python `int` on a string (ValueError modelled as `none`). -/
def intOfStr? (s : String) : Option Int :=
  intOfChars? s.data

theorem charDigit_digitChar {d : Nat} (h : d < 10) : charDigit (digitChar d) = some d := by
  interval_cases d <;> decide

theorem charsToDigits_map {l : List Nat} (h : ∀ d ∈ l, d < 10) :
    charsToDigits (l.map digitChar) = some l := by
  induction l with
  | nil => rfl
  | cons d ds ih =>
    have hd : d < 10 := h d (List.mem_cons_self d ds)
    have hds : ∀ x ∈ ds, x < 10 := fun x hx => h x (List.mem_cons_of_mem d hx)
    simp [charsToDigits, charDigit_digitChar hd, ih hds]

theorem natOfChars?_natToChars (n : Nat) : natOfChars? (natToChars n) = some n := by
  by_cases h : n = 0
  · subst h; rfl
  · have hne : Nat.digits 10 n ≠ [] := Nat.digits_ne_nil_iff_ne_zero.mpr h
    have hlt : ∀ d ∈ Nat.digits 10 n, d < 10 := fun d hd =>
      Nat.digits_lt_base (by norm_num) hd
    unfold natToChars natOfChars?
    rw [if_neg h, natDigits_eq_digits]
    rw [List.reverse_reverse]
    have hmapne : (Nat.digits 10 n).map digitChar ≠ [] := by
      simpa using hne
    rw [if_neg (by simpa [List.isEmpty_iff, List.reverse_eq_nil_iff] using hmapne)]
    rw [charsToDigits_map hlt]
    simp [Nat.ofDigits_digits]

theorem natToChars_digits (n : Nat) : ∀ c ∈ natToChars n, ∃ d, d < 10 ∧ c = digitChar d := by
  intro c hc
  unfold natToChars at hc
  by_cases h : n = 0
  · rw [if_pos h] at hc
    exact ⟨0, by norm_num, by simpa using hc⟩
  · rw [if_neg h, natDigits_eq_digits, List.mem_reverse, List.mem_map] at hc
    obtain ⟨d, hd, rfl⟩ := hc
    exact ⟨d, Nat.digits_lt_base (by norm_num) hd, rfl⟩

theorem natToChars_ne_nil (n : Nat) : natToChars n ≠ [] := by
  unfold natToChars
  by_cases h : n = 0
  · rw [if_pos h]; decide
  · rw [if_neg h, natDigits_eq_digits]
    have hne : Nat.digits 10 n ≠ [] := Nat.digits_ne_nil_iff_ne_zero.mpr h
    simpa using hne

theorem digitChar_ne_minus {d : Nat} (h : d < 10) : digitChar d ≠ '-' := by
  interval_cases d <;> decide

/-- Python `int` inverts Python `str` on every int. -/
theorem intOfStr?_strOfInt (i : Int) : intOfStr? (strOfInt i) = some i := by
  by_cases h : i < 0
  · have : intOfStr? (strOfInt i) = intOfChars? ('-' :: natToChars i.natAbs) := by
      unfold strOfInt intOfStr?
      rw [if_pos h]
    rw [this]
    simp only [intOfChars?, if_pos rfl]
    rw [natOfChars?_natToChars]
    simp only [Option.map_some', Option.some.injEq, Int.ofNat_eq_coe, if_true]
    rw [Int.ofNat_natAbs_of_nonpos (le_of_lt h)]
    exact neg_neg i
  · have hs : intOfStr? (strOfInt i) = intOfChars? (natToChars i.natAbs) := by
      unfold strOfInt intOfStr?
      rw [if_neg h]
    rw [hs]
    obtain ⟨c, cs, hcons⟩ : ∃ c cs, natToChars i.natAbs = c :: cs := by
      cases hnc : natToChars i.natAbs with
      | nil => exact absurd hnc (natToChars_ne_nil _)
      | cons c cs => exact ⟨c, cs, rfl⟩
    have hcmem : c ∈ natToChars i.natAbs := by rw [hcons]; exact List.mem_cons_self c cs
    obtain ⟨d, hd10, hcd⟩ := natToChars_digits i.natAbs c hcmem
    have hne2 : ¬ (c = '-') := by rw [hcd]; exact digitChar_ne_minus hd10
    rw [hcons]
    simp only [intOfChars?]
    rw [if_neg hne2]
    rw [← hcons, natOfChars?_natToChars]
    simp only [Option.map_some', Option.some.injEq, Int.ofNat_eq_coe]
    exact Int.natAbs_of_nonneg (not_lt.mp h)

/-! ### Record types (src/braindrop/raindrop/) -/

/-- From tag.py: a tag is a display string with case-insensitive identity.
Python `str.casefold` is embedded as `String.toLower`. -/
structure Tag where
  tag : String
deriving DecidableEq, Repr

/-- The case-insensitive identity key of a tag (tag.py uses `casefold`). -/
def Tag.key (t : Tag) : String := t.tag.toLower

/-- `Tag.__eq__` (tag.py lines 50-67): case-insensitive equality. -/
def tagEq (a b : Tag) : Bool := a.key == b.key

/-- From tag.py lines 79-86: a tag together with its occurrence count. -/
structure TagData where
  tag : Tag
  count : Nat
deriving DecidableEq, Repr

/-- Modelled from the spec: parse_time.py is imported by the sources but absent
from the snapshot.  `get_time(data, name)` reads an optional timestamp field: a
missing, null or non-string value yields `None`; datetimes are embedded as
integer epoch seconds, their ISO-8601 rendering as the decimal rendering
`strOfInt`, and parsing as its inverse `intOfStr?`. -/
def get_time (data : Json) (name : String) : Option Int :=
  match data with
  | .obj fields =>
    match Json.lookup fields name with
    | some (.str s) => intOfStr? s
    | _ => none
  | _ => none

/-- From raindrop.py lines 26-45: media details attached to a raindrop. -/
structure Media where
  link : String
  type : String
deriving DecidableEq, Repr

/-- `Media.from_json` (raindrop.py lines 35-45). -/
def Media.from_json (data : Json) : Except PyError Media := do
  let link ← (← data.index "link").asStr
  let ty ← (← data.index "type").asStr
  return { link := link, type := ty }

/-- From raindrop.py lines 49-82: the details of one bookmark.  The `user`
field keeps the raw JSON value, as the source stores whatever
`data.get("user", {}).get("$id", "")` returns without conversion. -/
structure Raindrop where
  raw : Json
  identity : Int
  collection : Int
  cover : String
  created : Option Int
  domain : String
  excerpt : String
  note : String
  last_update : Option Int
  link : String
  media : List Media
  tags : List Tag
  title : String
  type : String
  user : Json
deriving Repr

/-- `Raindrop.from_json` (raindrop.py lines 85-111).  Fields that the Python
dataclass declares with a scalar type are read with that type; a payload value
of the wrong shape is modelled as a `TypeError`. -/
def Raindrop.from_json (data : Json) : Except PyError Raindrop := do
  let identity ← (← data.index "_id").asInt
  let collection ← (← (← data.get "collection" (Json.obj [])).get "$id" (Json.num 0)).asInt
  let cover ← (← data.get "cover" (Json.str "")).asStr
  let domain ← (← data.get "domain" (Json.str "")).asStr
  let excerpt ← (← data.get "excerpt" (Json.str "")).asStr
  let note ← (← data.get "note" (Json.str "")).asStr
  let link ← (← data.get "link" (Json.str "")).asStr
  let media ← (← (← data.get "media" (Json.arr [])).asArr).mapM Media.from_json
  let tagStrs ← (← (← data.get "tags" (Json.arr [])).asArr).mapM Json.asStr
  let title ← (← data.get "title" (Json.str "")).asStr
  let ty ← (← data.get "type" (Json.str "link")).asStr
  let user ← (← data.get "user" (Json.obj [])).get "$id" (Json.str "")
  return { raw := data, identity := identity, collection := collection,
           cover := cover, created := get_time data "created", domain := domain,
           excerpt := excerpt, note := note,
           last_update := get_time data "lastUpdate", link := link,
           media := media, tags := tagStrs.map Tag.mk, title := title,
           type := ty, user := user }

/-- From collection.py lines 19-51: the details of one collection. -/
structure Collection where
  raw : Json
  identity : Int
  color : String
  count : Int
  cover : List String
  created : Option Int
  expanded : Bool
  last_update : Option Int
  public : Bool
  sort : Int
  title : String
  view : String
  parent : Option Int
deriving Repr

/-- `Collection.from_json` (collection.py lines 53-74). -/
def Collection.from_json (data : Json) : Except PyError Collection := do
  let identity ← (← data.index "_id").asInt
  let color ← (← data.get "color" (Json.str "")).asStr
  let count ← (← data.get "count" (Json.num 0)).asInt
  let cover ← (← (← data.get "cover" (Json.arr [])).asArr).mapM Json.asStr
  let expanded ← (← data.get "expanded" (Json.bool false)).asBool
  let public ← (← data.get "public" (Json.bool false)).asBool
  let sort ← (← data.get "sort" (Json.num 0)).asInt
  let title ← (← data.get "title" (Json.str "")).asStr
  let view ← (← data.get "view" (Json.str "")).asStr
  let parentJ ← (← data.get "parent" (Json.obj [])).getOpt "$id"
  let parent ← match parentJ with
    | Json.null => pure (none : Option Int)
    | j => some <$> j.asInt
  return { raw := data, identity := identity, color := color, count := count,
           cover := cover, created := get_time data "created",
           expanded := expanded, last_update := get_time data "lastUpdate",
           public := public, sort := sort, title := title, view := view,
           parent := parent }

/-- From user.py lines 43-57: a toggled capability. -/
structure Toggle where
  enabled : Bool
deriving DecidableEq, Repr

/-- `Toggle.from_json` (user.py lines 50-57): a falsy payload disables the
toggle, otherwise the `enabled` field (default False) is read through Python
truthiness. -/
def Toggle.from_json (data : Json) : Except PyError Toggle :=
  if data.truthy then do
    let e ← data.get "enabled" (Json.bool false)
    return { enabled := e.truthy }
  else
    return { enabled := false }

/-- From user.py lines 14-39: one of the user's navigation groups. -/
structure Group where
  title : String
  hidden : Bool
  sort : Int
  collections : List Int
deriving DecidableEq, Repr

/-- `Group.from_json` (user.py lines 27-39). -/
def Group.from_json (data : Json) : Except PyError Group := do
  let title ← (← data.index "title").asStr
  let hidden ← (← data.index "hidden").asBool
  let sort ← (← data.index "sort").asInt
  let collections ← (← (← data.index "collections").asArr).mapM Json.asInt
  return { title := title, hidden := hidden, sort := sort,
           collections := collections }

/-- From user.py lines 61-115, plus two fields the snapshot's user.py lacks but
the engine reads.  Modelled from the spec: `raw` (the user payload is persisted
verbatim by `LocalData.save`) and `last_update` (the remote user's last-update
timestamp consulted by the sync decision). -/
structure User where
  raw : Json
  identity : Int
  dropbox : Toggle
  gdrive : Toggle
  email : String
  email_md5 : String
  full_name : String
  groups : List Group
  tfa : Toggle
  apple : Toggle
  password : Bool
  pro : Bool
  pro_expire : String
  registered : String
  last_update : Option Int
deriving Repr

/-- `User.from_json` (user.py lines 94-115): indexes into the payload, so a
null payload raises a `TypeError` at `data["_id"]`. -/
def User.from_json (data : Json) : Except PyError User := do
  let identity ← (← data.index "_id").asInt
  let dropbox ← Toggle.from_json (← data.getOpt "dropbox")
  let gdrive ← Toggle.from_json (← data.getOpt "gdrive")
  let email ← (← data.index "email").asStr
  let email_md5 ← (← data.get "email_MD5" (Json.str "")).asStr
  let full_name ← (← data.index "fullName").asStr
  let groups ← (← (← data.index "groups").asArr).mapM Group.from_json
  let tfa ← Toggle.from_json (← data.getOpt "fta")
  let apple ← Toggle.from_json (← data.getOpt "apple")
  let password ← (← data.index "password").asBool
  let pro ← (← data.index "pro").asBool
  let pro_expire ← (← data.get "proExpire" (Json.str "")).asStr
  let registered ← (← data.index "registered").asStr
  return { raw := data, identity := identity, dropbox := dropbox,
           gdrive := gdrive, email := email, email_md5 := email_md5,
           full_name := full_name, groups := groups, tfa := tfa,
           apple := apple, password := password, pro := pro,
           pro_expire := pro_expire, registered := registered,
           last_update := get_time data "lastUpdate" }

/-! ### Tag aggregation (raindrops.py lines 204-210)

`Raindrops.tags` builds `set(raindrop.tags)` per raindrop — a Python set keyed
by the case-insensitive `Tag` hash/equality, keeping the first-inserted
representative — concatenates those sets and counts with `collections.Counter`,
which groups by the same case-insensitive identity in first-encounter order. -/

/-- Python `set` over tags: keep the first tag of each case-insensitive
identity, in encounter order. -/
def dedupTags : List Tag → List Tag
  | [] => []
  | t :: ts => t :: dedupTags (ts.filter (fun u => !(tagEq t u)))
termination_by l => l.length
decreasing_by
  simp only [List.length_cons]
  exact Nat.lt_succ_of_le (List.length_filter_le _ _)

/-- The concatenated per-raindrop tag sets that `Counter` receives. -/
def allTagOccurrences (raindrops : List Raindrop) : List Tag :=
  (raindrops.map (fun r => dedupTags r.tags)).flatten

/-- The count `Counter` reports for the identity of tag `t`. -/
def tagCount (raindrops : List Raindrop) (t : Tag) : Nat :=
  (allTagOccurrences raindrops).countP (fun u => tagEq t u)

/-- `Counter(tags).items()`: one entry per distinct case-insensitive identity,
first-encounter representative, with its occurrence count. -/
def counterItems (l : List Tag) : List TagData :=
  (dedupTags l).map (fun t => TagData.mk t (l.countP (fun u => tagEq t u)))

/-- The `Raindrops.tags` property (raindrops.py lines 204-210). -/
def Raindrops.tagsOf (raindrops : List Raindrop) : List TagData :=
  counterItems (allTagOccurrences raindrops)

/-- `is_tagged` is called on a raindrop by the `Tagged` filter but is absent
from the snapshot's raindrop.py.  Modelled from the spec: a bookmark is tagged
with `t` when its tag set contains `t` under case-insensitive equality. -/
def Raindrop.is_tagged (r : Raindrop) (t : Tag) : Bool :=
  r.tags.any (fun u => tagEq u t)

theorem tagEq_refl (a : Tag) : tagEq a a = true := by
  simp [tagEq]

theorem tagEq_symm {a b : Tag} (h : tagEq a b = true) : tagEq b a = true := by
  simp only [tagEq, beq_iff_eq] at h ⊢
  exact h.symm

theorem tagEq_trans {a b c : Tag} (h1 : tagEq a b = true) (h2 : tagEq b c = true) :
    tagEq a c = true := by
  simp only [tagEq, beq_iff_eq] at h1 h2 ⊢
  exact h1.trans h2

theorem any_filter_elim {l : List Tag} {p q : Tag → Bool}
    (h : ∀ u ∈ l, q u = true → p u = true) :
    (l.filter p).any q = l.any q := by
  induction l with
  | nil => rfl
  | cons t ts ih =>
    have ihts : (ts.filter p).any q = ts.any q :=
      ih (fun u hu hq => h u (List.mem_cons_of_mem t hu) hq)
    by_cases hp : p t = true
    · simp [List.filter_cons, hp, ihts]
    · have hq : q t = false := by
        cases hqt : q t with
        | false => rfl
        | true => exact absurd (h t (List.mem_cons_self t ts) hqt) hp
      simp [List.filter_cons, hp, hq, ihts]

/-- A deduplicated tag list holds the identity of `t` at most once: its count
is the indicator of membership. -/
theorem countP_dedupTags (t : Tag) (l : List Tag) :
    (dedupTags l).countP (fun u => tagEq t u) =
      if l.any (fun u => tagEq t u) then 1 else 0 := by
  suffices h : ∀ n (l : List Tag), l.length ≤ n →
      (dedupTags l).countP (fun u => tagEq t u) =
        if l.any (fun u => tagEq t u) then 1 else 0 from h l.length l le_rfl
  intro n
  induction n with
  | zero =>
    intro l hl
    have : l = [] := List.eq_nil_of_length_eq_zero (Nat.le_zero.mp hl)
    subst this
    simp [dedupTags]
  | succ n ih =>
    intro l hl
    cases l with
    | nil => simp [dedupTags]
    | cons t' ts =>
      have hlen : (ts.filter (fun u => !(tagEq t' u))).length ≤ n :=
        le_trans (List.length_filter_le _ _)
          (Nat.le_of_succ_le_succ (by simpa [List.length_cons] using hl))
      have ihf := ih (ts.filter (fun u => !(tagEq t' u))) hlen
      rw [dedupTags]
      by_cases heq : tagEq t t' = true
      · have hnone : (ts.filter (fun u => !(tagEq t' u))).any (fun u => tagEq t u) = false := by
          rw [List.any_eq_false]
          intro u hu
          rw [List.mem_filter] at hu
          intro htu
          have : tagEq t' u = true := tagEq_trans (tagEq_symm heq) htu
          simp [this] at hu
        simp [List.countP_cons, heq, ihf, hnone, List.any_cons]
      · have hfilter : (ts.filter (fun u => !(tagEq t' u))).any (fun u => tagEq t u) =
            ts.any (fun u => tagEq t u) := by
          apply any_filter_elim
          intro u _ htu
          cases htv : tagEq t' u with
          | false => rfl
          | true => exact absurd (tagEq_trans htu (tagEq_symm htv)) heq
        simp [List.countP_cons, heq, ihf, hfilter, List.any_cons]

/-! ### The filterable view (app/data/raindrops.py) -/

/-- The duck-typed `Filter` subclasses (raindrops.py lines 27-77) as an
inductive: `Tagged` holds the single tag given at construction (`self._tag`),
`Containing` the search text (`self._text`). -/
inductive Filter where
  | tagged (tag : Tag)
  | containing (text : String)
deriving DecidableEq, Repr

/-- `text in raindrop` is required by `Containing.__eq__` but `__contains__` is
absent from the snapshot's raindrop.py.  Modelled from the spec:
case-insensitive substring match across title, excerpt, note and link. -/
def Raindrop.contains_text (r : Raindrop) (text : String) : Bool :=
  let needle := text.toLower
  let hit := fun (s : String) => decide ((s.toLower.splitOn needle).length > 1)
  needle.isEmpty || hit r.title || hit r.excerpt || hit r.note || hit r.link

/-- `raindrop == some_filter` as evaluated by `Raindrops.filter` (raindrops.py
lines 51-54 and 71-74): dispatch on the filter kind. -/
def filterMatches (f : Filter) (r : Raindrop) : Bool :=
  match f with
  | .tagged t => r.is_tagged t
  | .containing text => r.contains_text text

/-- Is the filter a `Containing` instance? -/
def Filter.isContaining : Filter → Bool
  | .containing _ => true
  | _ => false

/-- Is the filter a `Tagged` instance? -/
def Filter.isTagged : Filter → Bool
  | .tagged _ => true
  | _ => false

/-- `Filter.__str__`: the tag's display string or the search text. -/
def Filter.text : Filter → String
  | .tagged t => t.tag
  | .containing text => text

/-- The state of a `Raindrops` view (raindrops.py lines 79-110): title, the
ordered raindrop list, the identity→position index, the filter chain that led
here, and the originating collection (`none` standing for the synthetic ALL
collection the constructor defaults to).  The self-referential `_source`
back-pointer is not needed by the properties below and is not embedded. -/
structure Raindrops where
  title : String
  raindrops : List Raindrop
  index : List (Int × Nat)
  filters : List Filter
  root_collection : Option Collection
deriving Repr

/-- Lookup in the identity→position dict. -/
def dictGet? (m : List (Int × Nat)) (k : Int) : Option Nat :=
  (m.find? (fun p => p.1 == k)).map (fun p => p.2)

/-- The `(identity, position)` pairs of `enumerate(self._raindrops)`, starting
at position `i`. -/
def enumIdentsFrom (i : Nat) : List Raindrop → List (Int × Nat)
  | [] => []
  | r :: rs => (r.identity, i) :: enumIdentsFrom (i + 1) rs

/-- The dict built by `Raindrops._reindex` (raindrops.py lines 112-122).  A
Python dict comprehension keeps the last position for a duplicated identity;
listing the pairs most-recent-first with first-match lookup realises exactly
that lookup behaviour. -/
def buildIndex (l : List Raindrop) : List (Int × Nat) :=
  (enumIdentsFrom 0 l).reverse

/-- `Raindrops._reindex`. -/
def Raindrops.reindex (s : Raindrops) : Raindrops :=
  { s with index := buildIndex s.raindrops }

/-- `Raindrops.__init__` (raindrops.py lines 79-110): store the fields and
reindex. -/
def Raindrops.mk_view (title : String) (raindrops : List Raindrop)
    (filters : List Filter) (root : Option Collection) : Raindrops :=
  Raindrops.reindex
    { title := title, raindrops := raindrops, index := [], filters := filters,
      root_collection := root }

/-- `Raindrops.set_to` (raindrops.py lines 124-134). -/
def Raindrops.set_to (s : Raindrops) (raindrops : List Raindrop) : Raindrops :=
  Raindrops.reindex { s with raindrops := raindrops }

/-- `Raindrops.push` (raindrops.py lines 141-151): insert at the front and
reindex. -/
def Raindrops.push (s : Raindrops) (r : Raindrop) : Raindrops :=
  Raindrops.reindex { s with raindrops := r :: s.raindrops }

/-- `Raindrops.replace` (raindrops.py lines 153-163): overwrite the slot the
index names for the identity, without reindexing; a missing identity is a
`KeyError` from `self._index[raindrop.identity]`, raised before any mutation.
The successful index is in range whenever the index agrees with the list. -/
def Raindrops.replace (s : Raindrops) (r : Raindrop) : Except PyError Raindrops :=
  match dictGet? s.index r.identity with
  | some i => .ok { s with raindrops := s.raindrops.set i r }
  | none => .error .keyError

/-- `Raindrops.remove` (raindrops.py lines 165-175): delete the slot the index
names for the identity, then reindex; a missing identity is a `KeyError`
raised before any mutation. -/
def Raindrops.remove (s : Raindrops) (r : Raindrop) : Except PyError Raindrops :=
  match dictGet? s.index r.identity with
  | some i => .ok (Raindrops.reindex { s with raindrops := s.raindrops.eraseIdx i })
  | none => .error .keyError

/-- `Raindrops.__contains__` (raindrops.py lines 265-267): an identity lookup
in the index. -/
def Raindrops.mem (s : Raindrops) (r : Raindrop) : Bool :=
  (dictGet? s.index r.identity).isSome

/-- `Raindrops.is_filtered` (raindrops.py lines 182-185). -/
def Raindrops.is_filtered (s : Raindrops) : Bool :=
  !s.filters.isEmpty

/-- `Raindrops.filter` (raindrops.py lines 212-227): a new view with the same
title and root, the chain extended by the new filter, and the contents
restricted to it. -/
def Raindrops.filter (s : Raindrops) (f : Filter) : Raindrops :=
  Raindrops.mk_view s.title (s.raindrops.filter (filterMatches f))
    (s.filters ++ [f]) s.root_collection

/-- `Raindrops.tagged` (raindrops.py lines 229-238). -/
def Raindrops.tagged (s : Raindrops) (t : Tag) : Raindrops :=
  s.filter (Filter.tagged t)

/-- `Raindrops.containing` (raindrops.py lines 240-249). -/
def Raindrops.containing (s : Raindrops) (text : String) : Raindrops :=
  s.filter (Filter.containing text)

/-- The `filters` list local to `Raindrops.description` (raindrops.py lines
195-201): an optional `contains ...` clause followed by an optional
`tagged ...` clause — all `Tagged` filters are joined into the one clause. -/
def descriptionClauses (filters : List Filter) : List String :=
  let search_text := (filters.filter Filter.isContaining).map
    (fun f => "\"" ++ f.text ++ "\"")
  let tags := (filters.filter Filter.isTagged).map Filter.text
  (if search_text.isEmpty then []
   else ["contains " ++ String.intercalate " and " search_text]) ++
  (if tags.isEmpty then []
   else ["tagged " ++ String.intercalate ", " tags])

/-- `Raindrops.description` (raindrops.py lines 192-202). -/
def Raindrops.description (s : Raindrops) : String :=
  String.intercalate "; " (s.title :: descriptionClauses s.filters) ++
    " (" ++ strOfInt (Int.ofNat s.raindrops.length) ++ ")"

/-! ### The index invariant -/

/-- The index exactly reflects the sequence: every indexed position holds a
raindrop with that identity, and an identity is indexed exactly when some
raindrop in the sequence carries it. -/
def IndexAgrees (s : Raindrops) : Prop :=
  (∀ k i, dictGet? s.index k = some i →
    ∃ r, s.raindrops[i]? = some r ∧ r.identity = k) ∧
  (∀ k, (dictGet? s.index k).isSome = true ↔ ∃ r ∈ s.raindrops, r.identity = k)

/-- A structural mutation of a view: the operations of the claims. -/
inductive Op where
  | push (r : Raindrop)
  | replace (r : Raindrop)
  | remove (r : Raindrop)
deriving Repr

/-- Apply one operation; a `KeyError` raised by replace/remove propagates to
the caller before any mutation, leaving the view as it was. -/
def applyOp (s : Raindrops) : Op → Raindrops
  | .push r => s.push r
  | .replace r =>
    match s.replace r with
    | .ok s2 => s2
    | .error _ => s
  | .remove r =>
    match s.remove r with
    | .ok s2 => s2
    | .error _ => s

/-- Apply a sequence of operations in order. -/
def applyOps (s : Raindrops) : List Op → Raindrops
  | [] => s
  | op :: ops => applyOps (applyOp s op) ops

theorem enumIdentsFrom_mem {l : List Raindrop} {n : Nat} {p : Int × Nat}
    (h : p ∈ enumIdentsFrom n l) :
    ∃ j, ∃ r, l[j]? = some r ∧ r.identity = p.1 ∧ p.2 = n + j := by
  induction l generalizing n with
  | nil => cases h
  | cons r rs ih =>
    rw [enumIdentsFrom] at h
    rcases List.mem_cons.mp h with h1 | h2
    · subst h1
      exact ⟨0, r, by simp, rfl, rfl⟩
    · obtain ⟨j, x, hx, hident, hpos⟩ := ih h2
      exact ⟨j + 1, x, by simpa using hx, hident, by omega⟩

theorem enumIdentsFrom_mem_of {l : List Raindrop} {n j : Nat} {r : Raindrop}
    (hj : l[j]? = some r) : (r.identity, n + j) ∈ enumIdentsFrom n l := by
  induction l generalizing n j with
  | nil => simp at hj
  | cons x rs ih =>
    cases j with
    | zero =>
      simp only [List.getElem?_cons_zero, Option.some.injEq] at hj
      subst hj
      simp [enumIdentsFrom]
    | succ j =>
      rw [List.getElem?_cons_succ] at hj
      rw [enumIdentsFrom]
      refine List.mem_cons.mpr (Or.inr ?_)
      have := ih (n := n + 1) hj
      have harith : n + 1 + j = n + (j + 1) := by omega
      rw [harith] at this
      exact this

theorem mem_of_getElem?_eq {α : Type} {l : List α} {i : Nat} {a : α}
    (h : l[i]? = some a) : a ∈ l :=
  List.mem_iff_getElem?.mpr ⟨i, h⟩

theorem dictGet?_buildIndex_some {l : List Raindrop} {k : Int} {i : Nat}
    (h : dictGet? (buildIndex l) k = some i) :
    ∃ r, l[i]? = some r ∧ r.identity = k := by
  unfold dictGet? at h
  cases hf : (buildIndex l).find? (fun q => q.1 == k) with
  | none => rw [hf] at h; cases h
  | some p =>
    rw [hf] at h
    simp only [Option.map_some', Option.some.injEq] at h
    have hp := List.find?_some hf
    have hpk : p.1 = k := by simpa using hp
    have hmem : p ∈ buildIndex l := List.mem_of_find?_eq_some hf
    rw [buildIndex, List.mem_reverse] at hmem
    obtain ⟨j, r, hr, hident, hpos⟩ := enumIdentsFrom_mem hmem
    have hji : j = i := by omega
    subst hji
    exact ⟨r, hr, by rw [hident, hpk]⟩

theorem dictGet?_buildIndex_isSome {l : List Raindrop} {k : Int} :
    (dictGet? (buildIndex l) k).isSome = true ↔ ∃ r ∈ l, r.identity = k := by
  constructor
  · intro h
    unfold dictGet? at h
    rw [Option.isSome_map'] at h
    rw [List.find?_isSome] at h
    obtain ⟨p, hmem, hp⟩ := h
    rw [buildIndex, List.mem_reverse] at hmem
    obtain ⟨j, r, hr, hident, _⟩ := enumIdentsFrom_mem hmem
    refine ⟨r, ?_, by rw [hident]; simpa using hp⟩
    exact mem_of_getElem?_eq hr
  · rintro ⟨r, hr, hk⟩
    rw [List.mem_iff_getElem?] at hr
    obtain ⟨j, hj⟩ := hr
    have hmem : (r.identity, j) ∈ enumIdentsFrom 0 l := by
      simpa using enumIdentsFrom_mem_of (n := 0) hj
    unfold dictGet?
    rw [Option.isSome_map', List.find?_isSome]
    exact ⟨(r.identity, j), by rw [buildIndex, List.mem_reverse]; exact hmem,
      by simpa using hk⟩

theorem IndexAgrees_reindex (s : Raindrops) : IndexAgrees s.reindex := by
  constructor
  · intro k i h
    exact dictGet?_buildIndex_some h
  · intro k
    exact dictGet?_buildIndex_isSome

theorem exists_identity_set {l : List Raindrop} {r x : Raindrop} {i : Nat}
    (hix : l[i]? = some x) (hid : x.identity = r.identity) (k : Int) :
    (∃ y ∈ l.set i r, y.identity = k) ↔ ∃ y ∈ l, y.identity = k := by
  have hilen : i < l.length := by
    rw [List.getElem?_eq_some] at hix
    exact hix.1
  constructor
  · rintro ⟨y, hy, hyk⟩
    rw [List.mem_iff_getElem?] at hy
    obtain ⟨j, hj⟩ := hy
    by_cases hji : j = i
    · subst hji
      rw [List.getElem?_set_self hilen] at hj
      have hry : r = y := by injection hj
      refine ⟨x, mem_of_getElem?_eq hix, ?_⟩
      rw [hid, hry]
      exact hyk
    · rw [List.getElem?_set_ne (fun he => hji he.symm)] at hj
      exact ⟨y, mem_of_getElem?_eq hj, hyk⟩
  · rintro ⟨y, hy, hyk⟩
    rw [List.mem_iff_getElem?] at hy
    obtain ⟨j, hj⟩ := hy
    by_cases hji : j = i
    · subst hji
      have hxy : y = x := by
        rw [hj] at hix
        injection hix
      refine ⟨r, ?_, ?_⟩
      · exact mem_of_getElem?_eq (l := l.set j r) (by rw [List.getElem?_set_self hilen])
      · rw [← hid, ← hxy]
        exact hyk
    · refine ⟨y, ?_, hyk⟩
      exact mem_of_getElem?_eq
        (by rw [List.getElem?_set_ne (fun he => hji he.symm)]; exact hj)

theorem IndexAgrees_applyOp {s : Raindrops} (hs : IndexAgrees s) (op : Op) :
    IndexAgrees (applyOp s op) := by
  cases op with
  | push r => exact IndexAgrees_reindex _
  | remove r =>
    cases hd : dictGet? s.index r.identity with
    | some i =>
      have happ : applyOp s (Op.remove r) =
          Raindrops.reindex { s with raindrops := s.raindrops.eraseIdx i } := by
        simp [applyOp, Raindrops.remove, hd]
      rw [happ]
      exact IndexAgrees_reindex _
    | none =>
      have happ : applyOp s (Op.remove r) = s := by
        simp [applyOp, Raindrops.remove, hd]
      rw [happ]
      exact hs
  | replace r =>
    cases hd : dictGet? s.index r.identity with
    | none =>
      have happ : applyOp s (Op.replace r) = s := by
        simp [applyOp, Raindrops.replace, hd]
      rw [happ]
      exact hs
    | some i =>
      have happ : applyOp s (Op.replace r) =
          { s with raindrops := s.raindrops.set i r } := by
        simp [applyOp, Raindrops.replace, hd]
      rw [happ]
      obtain ⟨x, hx, hident⟩ := hs.1 r.identity i hd
      constructor
      · intro k i2 h2
        have h2s : dictGet? s.index k = some i2 := h2
        obtain ⟨y, hy, hyk⟩ := hs.1 k i2 h2s
        show ∃ rr, (s.raindrops.set i r)[i2]? = some rr ∧ rr.identity = k
        by_cases hii : i2 = i
        · subst hii
          have hxy : y = x := by
            rw [hy] at hx
            injection hx
          refine ⟨r, ?_, ?_⟩
          · have hilen : i2 < s.raindrops.length := by
              rw [List.getElem?_eq_some] at hy
              exact hy.1
            exact List.getElem?_set_self hilen
          · rw [← hyk, hxy, hident]
        · refine ⟨y, ?_, hyk⟩
          rw [List.getElem?_set_ne (fun he => hii he.symm)]
          exact hy
      · intro k
        show (dictGet? s.index k).isSome = true ↔
          ∃ y ∈ s.raindrops.set i r, y.identity = k
        rw [hs.2 k]
        exact (exists_identity_set hx hident k).symm

theorem IndexAgrees_applyOps {s : Raindrops} (hs : IndexAgrees s) (ops : List Op) :
    IndexAgrees (applyOps s ops) := by
  induction ops generalizing s with
  | nil => exact hs
  | cons op ops ih =>
    rw [applyOps]
    exact ih (IndexAgrees_applyOp hs op)

/-! ### The local mirror (app/data/local.py) -/

/-- Reading a JSON value as an object's field list (`.items()` iteration). -/
def Json.asObj : Json → Except PyError (List (String × Json))
  | .obj fields => .ok fields
  | _ => .error .typeError

/-- The state of `LocalData` (local.py lines 119-139): the optional user, the
raindrop lists of the `Raindrops` groups titled "All" and "Trash", the
identity→collection dict in insertion order, and the optional last-download
timestamp (epoch seconds). -/
structure LocalData where
  user : Option User
  all : List Raindrop
  trash : List Raindrop
  collections : List (Int × Collection)
  last_downloaded : Option Int
deriving Repr

/-- A fresh `LocalData` (local.py `__init__`). -/
def LocalData.empty : LocalData :=
  { user := none, all := [], trash := [], collections := [],
    last_downloaded := none }

/-- One insertion into the identity→collection dict: overwrite in place or
append. -/
def dictInsertCol (m : List (Int × Collection)) (k : Int) (v : Collection) :
    List (Int × Collection) :=
  if m.any (fun p => p.1 == k) then
    m.map (fun p => if p.1 == k then (k, v) else p)
  else m ++ [(k, v)]

/-- The dict comprehension of `LocalData.download`: identity→collection, later
duplicates overwriting earlier ones. -/
def buildColDict (cols : List Collection) : List (Int × Collection) :=
  cols.foldl (fun m c => dictInsertCol m c.identity c) []

/-- `LocalData.download` (local.py lines 220-236), with the three remote
fetches supplied as already-resolved results and `datetime.now(UTC)` as `now`.
The method mutates `self` step by step: the user is stored before any fetch,
and each `await` completes before the assignment it feeds, so an exception
from a fetch propagates and leaves the fields assigned later untouched.  The
pair returned is the outcome and the state of the object afterward. -/
def LocalData.download (d : LocalData) (user : User)
    (fetch_all fetch_trash : Except PyError (List Raindrop))
    (fetch_collections : Except PyError (List Collection)) (now : Int) :
    Except PyError LocalData × LocalData :=
  let d1 : LocalData := { d with user := some user }
  match fetch_all with
  | .error e => (.error e, d1)
  | .ok allR =>
    let d2 : LocalData := { d1 with all := allR }
    match fetch_trash with
    | .error e => (.error e, d2)
    | .ok trashR =>
      let d3 : LocalData := { d2 with trash := trashR }
      match fetch_collections with
      | .error e => (.error e, d3)
      | .ok cols =>
        let d4 : LocalData := { d3 with
          collections := buildColDict cols,
          last_downloaded := some now }
        (.ok d4, d4)

/-- `LocalData._local_json` (local.py lines 238-249).  `json.dumps` renders the
int dict keys of `collections` as their decimal strings; the embedding applies
that rendering here and treats the dumps/loads pair on the resulting tree as
the identity, which it is for JSON trees.  `isoformat` on the timestamp is the
decimal rendering of the epoch seconds, matching `get_time`. -/
def LocalData.local_json (d : LocalData) : Json :=
  Json.obj
    [("last_downloaded",
        match d.last_downloaded with
        | none => Json.null
        | some t => Json.str (strOfInt t)),
     ("user",
        match d.user with
        | none => Json.null
        | some u => u.raw),
     ("all", Json.arr (d.all.map (fun r => r.raw))),
     ("trash", Json.arr (d.trash.map (fun r => r.raw))),
     ("collections",
        Json.obj (d.collections.map (fun p => (strOfInt p.1, p.2.raw))))]

/-- `LocalData.save` (local.py lines 251-260): the contents written to the
local data file. -/
def LocalData.save (d : LocalData) : Json :=
  d.local_json

/-- One entry of the `collections` dict comprehension in `LocalData.load`:
`int(k)` on the key (a `ValueError` when the key is not numeric) and
`Collection.from_json` on the payload. -/
def parseColEntry (p : String × Json) : Except PyError (Int × Collection) := do
  let k ← match intOfStr? p.1 with
    | some k => Except.ok k
    | none => Except.error PyError.valueError
  let c ← Collection.from_json p.2
  Except.ok (k, c)

/-- `LocalData.load` (local.py lines 262-282), with `file` the parsed contents
of the local data file when it exists (`none`: no file, the cache is left as
it was).  Assignments happen in source order; the embedding returns the fully
loaded state, or the first error raised while parsing. -/
def LocalData.load (d : LocalData) (file : Option Json) :
    Except PyError LocalData := do
  match file with
  | none => return d
  | some data =>
    let lastD := get_time data "last_downloaded"
    let user ← User.from_json (← data.get "user" (Json.obj []))
    let allJ ← (← data.get "all" (Json.arr [])).asArr
    let allR ← allJ.mapM Raindrop.from_json
    let trashJ ← (← data.get "trash" (Json.arr [])).asArr
    let trashR ← trashJ.mapM Raindrop.from_json
    let colsFields ← (← data.get "collections" (Json.obj [])).asObj
    let cols ← colsFields.mapM parseColEntry
    return { user := some user, all := allR, trash := trashR,
             collections := cols, last_downloaded := lastD }

/-- A mirror state whose records agree with their own raw payloads, as every
record constructed through `from_json` does. -/
def LocalData.WellFormed (d : LocalData) : Prop :=
  (∀ u, d.user = some u → User.from_json u.raw = .ok u) ∧
  (∀ r ∈ d.all, Raindrop.from_json r.raw = .ok r) ∧
  (∀ r ∈ d.trash, Raindrop.from_json r.raw = .ok r) ∧
  (∀ p ∈ d.collections, Collection.from_json (Prod.snd p).raw = .ok (Prod.snd p))

/-! ### The sync decision (app/screens/main.py) -/

/-- `Main._redownload_wiggle_room` (main.py lines 186-187). -/
def redownload_wiggle_room : Int := 2

/-- The decision at the heart of `Main.maybe_redownload` (main.py lines
232-258), taken once the remote user record is in hand: with no local
last-download timestamp a redownload is triggered; otherwise one is triggered
exactly when the user's last-update timestamp is present and more than
`wiggle` seconds ahead of the local timestamp.  Datetimes are epoch seconds,
so `total_seconds()` of the difference is the integer difference. -/
def maybe_redownload_decision (last_downloaded : Option Int)
    (user_last_update : Option Int) (wiggle : Int) : Bool :=
  match last_downloaded with
  | none => true
  | some localT =>
    match user_last_update with
    | some remoteT => decide (remoteT - localT > wiggle)
    | none => false

/-! ### The collection forest traversal (app/widgets/navigation.py) -/

/-- The loop body of `Navigation._add_children_for` (navigation.py lines
199-216) over a worklist of collections already known to match the parent,
embedded with an explicit recursion budget `fuel` that bounds the recursion
depth: the source recurses into each child with no cycle detection, so for a
cyclic parent map no budget suffices and the embedding answers `none`.  The
result lists the `(collection, indent)` pairs in the order the widget options
are added. -/
def addChildrenForAux (cols : List Collection) :
    Nat → List Collection → Nat → Option (List (Collection × Nat))
  | _, [], _ => some []
  | fuel, c :: rest, indent => do
    let sub ←
      match fuel with
      | 0 => none
      | f + 1 =>
        addChildrenForAux cols f
          (cols.filter (fun d => d.parent == some c.identity)) (indent + 1)
    let tail ← addChildrenForAux cols fuel rest indent
    pure ((c, indent) :: sub ++ tail)
termination_by fuel todo _j => (fuel, todo.length)

/-- `Navigation._add_children_for` (navigation.py lines 199-216): add, depth
first, every collection whose parent chain reaches `parent`, at increasing
indents. -/
def addChildrenFor (cols : List Collection) (parent : Collection)
    (indent : Nat) (fuel : Nat) : Option (List (Collection × Nat)) :=
  addChildrenForAux cols fuel
    (cols.filter (fun d => d.parent == some parent.identity)) (indent + 1)

/-! ### Concrete fixtures used by counterexamples and witnesses -/

/-- A raindrop with the given identity and tags; the raw payload is the
payload `Raindrop.from_json` would have been given. -/
def sampleRaindrop (id : Int) (tags : List Tag) : Raindrop :=
  { raw := Json.obj [("_id", Json.num id)], identity := id, collection := 0,
    cover := "", created := none, domain := "", excerpt := "", note := "",
    last_update := none, link := "", media := [], tags := tags, title := "",
    type := "link", user := Json.str "" }

/-! ### Claim theorems -/

/-- C2: the sync decision is a pure function of the local last-synchronized
timestamp, the remote user's last-update timestamp and the tolerance
(default 2 seconds): an absent local timestamp triggers a refresh; otherwise a
refresh is triggered iff the remote timestamp is strictly more than the
tolerance ahead; with the default tolerance, remote = local + 1s gives no
refresh and remote = local + 3s triggers one. -/
theorem maybe_redownload_decision_spec :
    redownload_wiggle_room = 2 ∧
    (∀ r w, maybe_redownload_decision none r w = true) ∧
    (∀ l r w, maybe_redownload_decision (some l) (some r) w =
      decide (r - l > w)) ∧
    (∀ t, maybe_redownload_decision (some t) (some (t + 1))
      redownload_wiggle_room = false) ∧
    (∀ t, maybe_redownload_decision (some t) (some (t + 3))
      redownload_wiggle_room = true) := by
  refine ⟨rfl, fun r w => rfl, fun l r w => rfl, fun t => ?_, fun t => ?_⟩
  · simp [maybe_redownload_decision, redownload_wiggle_room]
  · simp [maybe_redownload_decision, redownload_wiggle_room]

/-- C5 counterexample: applying `tagged` twice appends two separate `Tagged`
links to the filter chain — the chain does not hold one combined tag filter. -/
theorem tagged_twice_two_chain_links :
    (((Raindrops.mk_view "All" [] [] none).tagged (Tag.mk "a")).tagged
        (Tag.mk "b")).filters =
      [Filter.tagged (Tag.mk "a"), Filter.tagged (Tag.mk "b")] ∧
    ¬((((Raindrops.mk_view "All" [] [] none).tagged (Tag.mk "a")).tagged
        (Tag.mk "b")).filters.countP Filter.isTagged = 1) := by
  constructor
  · rfl
  · decide

/-- C5 (amended): applying `tagged` twice appends one `Tagged` link per call
to the filter chain, but the description still reports a single combined
`tagged ...` clause listing every tag. -/
theorem tagged_twice_chain_and_description (s : Raindrops) (x y : Tag) :
    ((s.tagged x).tagged y).filters =
      s.filters ++ [Filter.tagged x, Filter.tagged y] ∧
    descriptionClauses ((s.tagged x).tagged y).filters =
      (if ((s.filters.filter Filter.isContaining).map
            (fun f => "\"" ++ f.text ++ "\"")).isEmpty then []
       else ["contains " ++ String.intercalate " and "
              ((s.filters.filter Filter.isContaining).map
                (fun f => "\"" ++ f.text ++ "\""))]) ++
      ["tagged " ++ String.intercalate ", "
        ((s.filters.filter Filter.isTagged).map Filter.text ++
          [x.tag, y.tag])] := by
  have hchain : ((s.tagged x).tagged y).filters =
      s.filters ++ [Filter.tagged x, Filter.tagged y] := by
    simp [Raindrops.tagged, Raindrops.filter, Raindrops.mk_view,
      Raindrops.reindex]
  refine ⟨hchain, ?_⟩
  rw [hchain]
  rw [descriptionClauses]
  rw [List.filter_append, List.filter_append]
  have hc2 : [Filter.tagged x, Filter.tagged y].filter Filter.isContaining = [] := rfl
  have ht2 : [Filter.tagged x, Filter.tagged y].filter Filter.isTagged =
      [Filter.tagged x, Filter.tagged y] := rfl
  rw [hc2, ht2]
  simp only [List.append_nil, List.map_append, List.map_cons, List.map_nil,
    Filter.text]
  have hne : (((s.filters.filter Filter.isTagged).map Filter.text) ++
      [x.tag, y.tag]).isEmpty = false := by
    rw [List.isEmpty_eq_false_iff_exists_mem]
    exact ⟨x.tag, by simp⟩
  rw [hne]
  simp

/-- C6: applying `tagged x` then `tagged y` yields, in order, exactly the
bookmarks of the original view carrying both tags — the same contents as one
conjunctive filter. -/
theorem tagged_twice_conjunction (s : Raindrops) (x y : Tag) :
    ((s.tagged x).tagged y).raindrops =
      s.raindrops.filter (fun r => r.is_tagged x && r.is_tagged y) := by
  show (s.raindrops.filter (filterMatches (Filter.tagged x))).filter
      (filterMatches (Filter.tagged y)) =
    s.raindrops.filter (fun r => r.is_tagged x && r.is_tagged y)
  rw [List.filter_filter]
  apply List.filter_congr
  intro r _
  simp [filterMatches, Bool.and_comm]

/-- C7: the tag aggregation counts each bookmark at most once per distinct
case-insensitive tag: the count for a tag equals the number of bookmarks
carrying it, never exceeds the number of bookmarks, and every reported
`TagData` carries exactly that count. -/
theorem tag_counts_dedup_per_bookmark (B : List Raindrop) (t : Tag) :
    tagCount B t = B.countP (fun r => r.tags.any (fun u => tagEq t u)) ∧
    tagCount B t ≤ B.length ∧
    (Raindrops.tagsOf B).all (fun td => td.count == tagCount B td.tag) = true := by
  have hcount : tagCount B t =
      B.countP (fun r => r.tags.any (fun u => tagEq t u)) := by
    induction B with
    | nil => rfl
    | cons r B ih =>
      have hocc : allTagOccurrences (r :: B) =
          dedupTags r.tags ++ allTagOccurrences B := by
        simp [allTagOccurrences]
      rw [tagCount, hocc, List.countP_append, countP_dedupTags,
        List.countP_cons, ← tagCount, ih]
      by_cases h : r.tags.any (fun u => tagEq t u) <;> simp [h, Nat.add_comm]
  refine ⟨hcount, ?_, ?_⟩
  · rw [hcount]
    exact List.countP_le_length _
  · rw [List.all_eq_true]
    intro td htd
    rw [Raindrops.tagsOf, counterItems, List.mem_map] at htd
    obtain ⟨t2, ht2, rfl⟩ := htd
    simp [tagCount]

theorem IndexAgrees_mk_view (title : String) (l : List Raindrop)
    (fs : List Filter) (rc : Option Collection) :
    IndexAgrees (Raindrops.mk_view title l fs rc) :=
  IndexAgrees_reindex _

/-- C3: starting from any constructed view and applying any sequence of push,
replace and remove operations, the identity→position index exactly reflects
the bookmark sequence afterward, and `__contains__` answers exactly whether a
bookmark with that identity is in the sequence. -/
theorem index_reflects_sequence (title : String) (l : List Raindrop)
    (fs : List Filter) (rc : Option Collection) (ops : List Op) :
    IndexAgrees (applyOps (Raindrops.mk_view title l fs rc) ops) ∧
    ∀ b : Raindrop,
      (applyOps (Raindrops.mk_view title l fs rc) ops).mem b = true ↔
        ∃ x ∈ (applyOps (Raindrops.mk_view title l fs rc) ops).raindrops,
          x.identity = b.identity := by
  have hagree : IndexAgrees (applyOps (Raindrops.mk_view title l fs rc) ops) :=
    IndexAgrees_applyOps (IndexAgrees_mk_view title l fs rc) ops
  exact ⟨hagree, fun b => hagree.2 b.identity⟩

/-- A two-element root view used by the witnesses. -/
def demoView : Raindrops :=
  Raindrops.mk_view "All" [sampleRaindrop 1 [], sampleRaindrop 2 []] [] none

/-- A new version of the bookmark with identity 1. -/
def demoReplacement : Raindrop :=
  sampleRaindrop 1 [Tag.mk "x"]

theorem index_reflects_sequence_witness :
    (applyOps (Raindrops.mk_view "All" [sampleRaindrop 1 [], sampleRaindrop 2 []]
        [] none) [Op.push (sampleRaindrop 3 [])]).mem (sampleRaindrop 3 []) = true :=
  ((index_reflects_sequence "All" [sampleRaindrop 1 [], sampleRaindrop 2 []]
      [] none [Op.push (sampleRaindrop 3 [])]).2 (sampleRaindrop 3 [])).mpr
    ⟨sampleRaindrop 3 [], List.mem_cons_self _ _, rfl⟩

/-- C8: `replace` on an absent identity fails with the key-lookup error,
leaving the collection untouched; on a present identity it substitutes the
bookmark at the identity's existing position without reindexing, leaving the
index, every other slot and all positions unchanged. -/
theorem replace_in_place (s : Raindrops) (b : Raindrop) (hs : IndexAgrees s) :
    ((¬∃ r ∈ s.raindrops, r.identity = b.identity) →
      s.replace b = .error .keyError) ∧
    (∀ i, dictGet? s.index b.identity = some i →
      ∃ s2, s.replace b = .ok s2 ∧
        s2.index = s.index ∧
        s2.title = s.title ∧
        s2.filters = s.filters ∧
        s2.raindrops.length = s.raindrops.length ∧
        s2.raindrops[i]? = some b ∧
        (∀ j, j ≠ i → s2.raindrops[j]? = s.raindrops[j]?) ∧
        IndexAgrees s2) := by
  constructor
  · intro habs
    have hnone : dictGet? s.index b.identity = none := by
      cases hd : dictGet? s.index b.identity with
      | none => rfl
      | some i =>
        exact absurd ((hs.2 b.identity).mp (by rw [hd]; rfl)) habs
    rw [Raindrops.replace, hnone]
  · intro i hd
    obtain ⟨x, hx, hident⟩ := hs.1 b.identity i hd
    have hilen : i < s.raindrops.length := by
      rw [List.getElem?_eq_some] at hx
      exact hx.1
    refine ⟨{ s with raindrops := s.raindrops.set i b }, ?_, rfl, rfl, rfl, ?_,
      ?_, ?_, ?_⟩
    · rw [Raindrops.replace, hd]
    · simp
    · exact List.getElem?_set_self hilen
    · intro j hj
      exact List.getElem?_set_ne (fun he => hj he.symm)
    · have hpres := IndexAgrees_applyOp hs (Op.replace b)
      have happ : applyOp s (Op.replace b) =
          { s with raindrops := s.raindrops.set i b } := by
        simp [applyOp, Raindrops.replace, hd]
      rwa [happ] at hpres

theorem replace_in_place_witness :
    ∃ s2, demoView.replace demoReplacement = .ok s2 ∧
      s2.index = demoView.index ∧
      s2.title = demoView.title ∧
      s2.filters = demoView.filters ∧
      s2.raindrops.length = demoView.raindrops.length ∧
      s2.raindrops[0]? = some demoReplacement ∧
      (∀ j, j ≠ 0 → s2.raindrops[j]? = demoView.raindrops[j]?) ∧
      IndexAgrees s2 :=
  (replace_in_place demoView demoReplacement
    (IndexAgrees_mk_view "All" [sampleRaindrop 1 [], sampleRaindrop 2 []]
      [] none)).2 0 rfl

/-- A concrete user record whose raw payload parses back to itself. -/
def sampleUser : User :=
  { raw := Json.obj
      [("_id", Json.num 7), ("email", Json.str "u@example.com"),
       ("fullName", Json.str "U Ser"), ("groups", Json.arr []),
       ("password", Json.bool true), ("pro", Json.bool false),
       ("registered", Json.str "2024-01-01")],
    identity := 7, dropbox := { enabled := false },
    gdrive := { enabled := false }, email := "u@example.com",
    email_md5 := "", full_name := "U Ser", groups := [],
    tfa := { enabled := false }, apple := { enabled := false },
    password := true, pro := false, pro_expire := "",
    registered := "2024-01-01", last_update := none }

/-- C1 counterexample: with the first fetch failing, `download` fails with the
remote error but the cache's user has already been replaced — the failure is
not all-or-nothing over user, all, trash, collections and timestamp. -/
theorem download_failure_changes_user :
    (LocalData.empty.download sampleUser (Except.error PyError.remoteError)
        (Except.ok []) (Except.ok []) 0).1 = Except.error PyError.remoteError ∧
    (LocalData.empty.download sampleUser (Except.error PyError.remoteError)
        (Except.ok []) (Except.ok []) 0).2.user = some sampleUser ∧
    LocalData.empty.user = none :=
  ⟨rfl, rfl, rfl⟩

/-- C1 (amended): `download` stores the user before any fetch and commits each
replacement before the next fetch begins, so a failing fetch propagates its
error while exactly the assignments that preceded it stand; the collections
map and the last-download timestamp are replaced only when every fetch
succeeded. -/
theorem download_commits_in_order (d : LocalData) (user : User)
    (fa ft : Except PyError (List Raindrop))
    (fc : Except PyError (List Collection)) (now : Int) :
    (∀ e, fa = .error e →
      d.download user fa ft fc now =
        (.error e, { d with user := some user })) ∧
    (∀ allR e, fa = .ok allR → ft = .error e →
      d.download user fa ft fc now =
        (.error e, { d with user := some user, all := allR })) ∧
    (∀ allR trashR e, fa = .ok allR → ft = .ok trashR → fc = .error e →
      d.download user fa ft fc now =
        (.error e,
         { d with
           user := some user, all := allR, trash := trashR })) ∧
    (∀ allR trashR cols, fa = .ok allR → ft = .ok trashR → fc = .ok cols →
      d.download user fa ft fc now =
        (.ok { d with
               user := some user, all := allR, trash := trashR,
               collections := buildColDict cols,
               last_downloaded := some now },
         { d with
           user := some user, all := allR, trash := trashR,
           collections := buildColDict cols,
           last_downloaded := some now })) := by
  refine ⟨?_, ?_, ?_, ?_⟩ <;> intros <;> subst_vars <;> rfl

theorem download_commits_in_order_witness :
    LocalData.empty.download sampleUser (Except.ok [sampleRaindrop 1 []])
        (Except.error PyError.remoteError) (Except.ok []) 0 =
      (Except.error PyError.remoteError,
       { LocalData.empty with
         user := some sampleUser, all := [sampleRaindrop 1 []] }) :=
  (download_commits_in_order LocalData.empty sampleUser
      (Except.ok [sampleRaindrop 1 []]) (Except.error PyError.remoteError)
      (Except.ok []) 0).2.1 [sampleRaindrop 1 []] PyError.remoteError rfl rfl

/-- A collection that is its own parent: the smallest cyclic collection map. -/
def cyclicCollection : Collection :=
  { raw := Json.null, identity := 1, color := "", count := 0, cover := [],
    created := none, expanded := false, last_update := none, public := false,
    sort := 0, title := "Loop", view := "", parent := some 1 }

/-- C9 counterexample: on the one-element collection map whose collection is
its own parent, the depth-first enumeration exhausts every recursion budget —
it does not terminate. -/
theorem collections_under_cycle_diverges :
    ¬∃ fuel result,
      addChildrenFor [cyclicCollection] cyclicCollection 0 fuel = some result := by
  rintro ⟨fuel, result, hres⟩
  have hfilter : [cyclicCollection].filter
      (fun d => d.parent == some cyclicCollection.identity) =
        [cyclicCollection] := rfl
  have key : ∀ fuel ind,
      addChildrenForAux [cyclicCollection] fuel [cyclicCollection] ind = none := by
    intro fuel
    induction fuel with
    | zero =>
      intro ind
      simp [addChildrenForAux]
    | succ f ihf =>
      intro ind
      rw [addChildrenForAux]
      rw [hfilter, ihf (ind + 1)]
      rfl
  rw [addChildrenFor, hfilter, key fuel 1] at hres
  cases hres

theorem addChildrenForAux_isSome (cols : List Collection) (rank : Int → Nat)
    (hrank : ∀ c ∈ cols, ∀ pid, c.parent = some pid →
      rank c.identity < rank pid) :
    ∀ fuel, ∀ todo : List Collection, ∀ indent,
      (∀ c ∈ todo, c ∈ cols ∧ rank c.identity < fuel) →
      (addChildrenForAux cols fuel todo indent).isSome = true := by
  intro fuel
  induction fuel using Nat.strong_induction_on with
  | _ fuel ih =>
    intro todo
    induction todo with
    | nil =>
      intro indent h
      simp [addChildrenForAux]
    | cons c rest ihrest =>
      intro indent h
      obtain ⟨hc_cols, hc_rank⟩ := h c (List.mem_cons_self c rest)
      obtain ⟨f, rfl⟩ : ∃ f, fuel = f + 1 := ⟨fuel - 1, by omega⟩
      have hsub : (addChildrenForAux cols f
          (cols.filter (fun d => d.parent == some c.identity))
          (indent + 1)).isSome = true := by
        apply ih f (by omega)
        intro d hd
        rw [List.mem_filter] at hd
        refine ⟨hd.1, ?_⟩
        have hdp : d.parent = some c.identity := by
          simpa using hd.2
        have := hrank d hd.1 c.identity hdp
        omega
      have htail : (addChildrenForAux cols (f + 1) rest indent).isSome = true := by
        apply ihrest
        intro d hd
        exact h d (List.mem_cons_of_mem c hd)
      obtain ⟨subL, hsubL⟩ := Option.isSome_iff_exists.mp hsub
      obtain ⟨tailL, htailL⟩ := Option.isSome_iff_exists.mp htail
      rw [addChildrenForAux]
      simp [hsubL, htailL]

/-- C9 (amended): the enumeration terminates on every collection map whose
parent graph admits a rank strictly decreasing from parent to child — that is,
on every acyclic map — with a budget of the root's rank plus one; on a cyclic
map, such as a collection that is its own parent, it does not terminate. -/
theorem collections_under_terminates (cols : List Collection)
    (rank : Int → Nat)
    (hrank : ∀ c ∈ cols, ∀ pid, c.parent = some pid →
      rank c.identity < rank pid)
    (parent : Collection) (indent : Nat) :
    (addChildrenFor cols parent indent (rank parent.identity + 1)).isSome
      = true := by
  unfold addChildrenFor
  apply addChildrenForAux_isSome cols rank hrank
  intro c hc
  rw [List.mem_filter] at hc
  refine ⟨hc.1, ?_⟩
  have hcp : c.parent = some parent.identity := by simpa using hc.2
  have := hrank c hc.1 parent.identity hcp
  omega

/-- A two-collection acyclic map for the termination witness. -/
def demoRootCollection : Collection :=
  { raw := Json.null, identity := 1, color := "", count := 0, cover := [],
    created := none, expanded := false, last_update := none, public := false,
    sort := 0, title := "Root", view := "", parent := none }

/-- The child of `demoRootCollection`. -/
def demoChildCollection : Collection :=
  { raw := Json.null, identity := 2, color := "", count := 0, cover := [],
    created := none, expanded := false, last_update := none, public := false,
    sort := 0, title := "Child", view := "", parent := some 1 }

/-- A rank witness for the two-collection map. -/
def demoRank : Int → Nat :=
  fun i => if i = 1 then 1 else 0

theorem collections_under_terminates_witness :
    (addChildrenFor [demoRootCollection, demoChildCollection]
        demoRootCollection 0
        (demoRank demoRootCollection.identity + 1)).isSome = true := by
  apply collections_under_terminates
    [demoRootCollection, demoChildCollection] demoRank
  intro c hc pid hp
  rcases List.mem_cons.mp hc with rfl | hc2
  · exact absurd hp (by simp [demoRootCollection])
  · rcases List.mem_cons.mp hc2 with rfl | hc3
    · have hpid : pid = 1 := by
        have : (some 1 : Option Int) = some pid := hp
        injection this with h2
        exact h2.symm
      subst hpid
      decide
    · cases hc3

/-! ### The save/load round trip -/

theorem except_ok_bind {ε α β : Type} (a : α) (f : α → Except ε β) :
    (Except.ok a : Except ε α) >>= f = f a := rfl

theorem mapM_raindrop_raw {l : List Raindrop}
    (h : ∀ r ∈ l, Raindrop.from_json r.raw = .ok r) :
    (l.map (fun r => r.raw)).mapM Raindrop.from_json = .ok l := by
  induction l with
  | nil => rfl
  | cons r rs ih =>
    rw [List.map_cons, List.mapM_cons]
    rw [h r (List.mem_cons_self r rs),
      ih (fun x hx => h x (List.mem_cons_of_mem r hx))]
    rfl

theorem parseColEntry_round {k : Int} {c : Collection}
    (hc : Collection.from_json c.raw = .ok c) :
    parseColEntry (strOfInt k, c.raw) = .ok (k, c) := by
  rw [parseColEntry]
  rw [show intOfStr? (strOfInt k) = some k from intOfStr?_strOfInt k]
  simp only [hc]
  rfl

theorem mapM_parseColEntry {m : List (Int × Collection)}
    (h : ∀ p ∈ m, Collection.from_json (Prod.snd p).raw = .ok (Prod.snd p)) :
    (m.map (fun p => (strOfInt p.1, (Prod.snd p).raw))).mapM parseColEntry =
      .ok m := by
  induction m with
  | nil => rfl
  | cons p ps ih =>
    rw [List.map_cons, List.mapM_cons]
    rw [parseColEntry_round (h p (List.mem_cons_self p ps)),
      ih (fun x hx => h x (List.mem_cons_of_mem p hx))]
    rfl

/-- C4 (amended): on every well-formed mirror whose user is present, `save`
followed by `load` into a fresh cache reproduces the mirror exactly — the same
user, bookmark lists, collection map and timestamp, with every raw payload
byte-for-byte identical because the loaded records are rebuilt from the very
payloads `save` wrote. -/
theorem save_load_round_trip (d : LocalData) (u : User)
    (hwf : d.WellFormed) (hu : d.user = some u) :
    LocalData.load LocalData.empty (some d.save) = .ok d := by
  obtain ⟨hwu, hwa, hwt, hwc⟩ := hwf
  have huser : User.from_json u.raw = .ok u := hwu u hu
  obtain ⟨du, da, dt, dc, dl⟩ := d
  have hu2 : du = some u := hu
  subst hu2
  have hwa2 : ∀ r ∈ da, Raindrop.from_json r.raw = Except.ok r := hwa
  have hwt2 : ∀ r ∈ dt, Raindrop.from_json r.raw = Except.ok r := hwt
  have hwc2 : ∀ p ∈ dc,
      Collection.from_json (Prod.snd p).raw = Except.ok (Prod.snd p) := hwc
  have hall : List.mapM.loop Raindrop.from_json
      (da.map (fun r => r.raw)) [] = Except.ok da := mapM_raindrop_raw hwa2
  have htrash : List.mapM.loop Raindrop.from_json
      (dt.map (fun r => r.raw)) [] = Except.ok dt := mapM_raindrop_raw hwt2
  have hcols : List.mapM.loop parseColEntry
      (dc.map (fun p => (strOfInt p.1, (Prod.snd p).raw))) [] =
        Except.ok dc := mapM_parseColEntry hwc2
  cases dl with
  | none =>
    simp [LocalData.load, LocalData.save, LocalData.local_json,
      Json.get, Json.lookup, List.find?, Option.getD, Json.asArr, Json.asObj,
      get_time, huser, hall, htrash, hcols, except_ok_bind]
  | some t =>
    simp [LocalData.load, LocalData.save, LocalData.local_json,
      Json.get, Json.lookup, List.find?, Option.getD, Json.asArr, Json.asObj,
      get_time, huser, hall, htrash, hcols, intOfStr?_strOfInt, except_ok_bind]

/-- A collection whose record agrees with its raw payload. -/
def sampleCollection : Collection :=
  { raw := Json.obj [("_id", Json.num 5)], identity := 5, color := "",
    count := 0, cover := [], created := none, expanded := false,
    last_update := none, public := false, sort := 0, title := "", view := "",
    parent := none }

/-- A well-formed mirror with a user, a bookmark, a collection and a
timestamp. -/
def demoWFCache : LocalData :=
  { user := some sampleUser, all := [sampleRaindrop 9 []], trash := [],
    collections := [(5, sampleCollection)],
    last_downloaded := some 1700000000 }

theorem save_load_round_trip_witness :
    LocalData.load LocalData.empty (some demoWFCache.save) =
      .ok demoWFCache :=
  save_load_round_trip demoWFCache sampleUser
    (by
      refine ⟨?_, ?_, ?_, ?_⟩
      · intro v hv
        have hv2 : some sampleUser = some v := hv
        cases hv2
        rfl
      · intro r hr
        rcases List.mem_cons.mp hr with rfl | h2
        · rfl
        · cases h2
      · intro r hr
        cases hr
      · intro p hp
        rcases List.mem_cons.mp hp with rfl | h2
        · rfl
        · cases h2)
    rfl

/-- A cache state with no user, as left by a session that never completed a
fetch. -/
def demoNoUserCache : LocalData :=
  { user := none, all := [], trash := [], collections := [],
    last_downloaded := none }

/-- C4 counterexample: for the state with no user — a state `save` happily
writes, with a null user payload — `load` on the saved file raises instead of
reproducing the mirror, so the round trip does not hold for every state. -/
theorem save_load_fails_without_user :
    LocalData.load LocalData.empty (some demoNoUserCache.save) =
      .error .typeError ∧
    LocalData.load LocalData.empty (some demoNoUserCache.save) ≠
      .ok demoNoUserCache := by
  constructor
  · rfl
  · intro h
    cases h

/-- A populated cache that has never fetched a user. -/
def demoNoUserPopulatedCache : LocalData :=
  { user := none, all := [sampleRaindrop 3 [Tag.mk "keep"]], trash := [],
    collections := [(5, demoRootCollection)], last_downloaded := some 50 }

/-- C10: a persisted cache file whose `user` field is null — exactly what
`save` produces for a cache that has never fetched a user — makes `load` raise
a `TypeError`, because the null user payload is passed to the `User`
constructor, which indexes into it; the cache with its absent user is not
restored. -/
theorem load_null_user_errors :
    LocalData.load LocalData.empty (some demoNoUserPopulatedCache.save) =
      .error .typeError ∧
    Json.lookup
      [("user", Json.null)] "user" = some Json.null ∧
    User.from_json Json.null = .error .typeError := by
  refine ⟨?_, rfl, rfl⟩
  rfl

end Braindrop
